import Mathlib

/-!
Verification of the crush session-orchestration core and its peripheral
tooling (todos tool, TUI todo rendering, VCS status parsing) against its
natural-language specification.  Pure fragments of the Go source are
shallowly embedded as executable Lean definitions; components whose source
is not part of the excerpt (message queue, context-window manager, job
registry) are modelled from the specification text, as marked in their
doc comments.
-/

/-! ## Session data model

The `session` package itself is outside the sampled source; its shape is
reconstructed from the spec's data model (§3) and from how the sampled code
uses it (`session.Todo`, `session.TodoStatus`, `currentSession.Todos`). -/

/-- Modelled from the spec: `session.TodoStatus` is a string type naming a
todo's state (`pending`, `in_progress`, or `completed`); the `session`
package source is not in the excerpt. -/
abbrev TodoStatus := String

/-- Modelled from the spec: the `pending` status constant of the missing
`session` package. -/
def TodoStatusPending : TodoStatus := "pending"

/-- Modelled from the spec: the `in_progress` status constant of the missing
`session` package. -/
def TodoStatusInProgress : TodoStatus := "in_progress"

/-- Modelled from the spec: the `completed` status constant of the missing
`session` package. -/
def TodoStatusCompleted : TodoStatus := "completed"

/-- Structure `session.Todo`: one checklist item (content, status, active-form label),
as used by `todos.go` and `pills.go`. -/
structure Todo where
  Content : String
  Status : TodoStatus
  ActiveForm : String
deriving DecidableEq, Repr

/-- Modelled from the spec: a Message carries a role, content, and a
token-size estimate (§3); the message type's source is not in the excerpt.
Content parts are flattened to a single string. -/
structure Message where
  role : String
  content : String
  sizeEstimate : Nat
deriving DecidableEq, Repr

/-- Modelled from the spec: a Session holds an identity, an ordered log of
Messages, a current Todo list and a turn-state marker (§3); the `session`
package source is not in the excerpt.  The sampled `todos.go` only ever
touches the `Todos` field. -/
structure Session where
  ID : String
  Messages : List Message
  Todos : List Todo
  TurnState : String
deriving DecidableEq, Repr

/-! ## The todos tool (`internal/agent/tools/todos.go`)

`session.Service` is embedded as a pair of pure fallible functions; the
handler is embedded as a pure function that additionally returns the list
of sessions passed to `Save`, so that claims about which `Save` calls
happen can be stated. -/

/-- Structure `TodoItem` of `todos.go`: one item of the tool's parameter list. -/
structure TodoItem where
  Content : String
  Status : String
  ActiveForm : String
deriving DecidableEq, Repr

/-- Structure `TodosParams` of `todos.go`: the tool's parameter struct. -/
structure TodosParams where
  Todos : List TodoItem
deriving DecidableEq, Repr

/-- Interface `session.Service` as used by `todos.go`: `Get` and `Save`, both
fallible.  (Go's `Save` returns `(Session, error)`; the handler discards
the returned session.) -/
structure Service where
  get : String → Except String Session
  save : Session → Except String Session

/-- The per-item conversion of `todos.go` lines 44-51: each `TodoItem`
becomes a `session.Todo` with the same content, status (the
`session.TodoStatus(item.Status)` cast is the identity on strings) and
active form. -/
def convertTodoItem (item : TodoItem) : Todo :=
  { Content := item.Content, Status := item.Status, ActiveForm := item.ActiveForm }

/-- The handler closure of `NewTodosTool` (`todos.go` lines 31-82).
Returns the tool response (or error text) together with the list of
sessions passed to `sessions.Save`, in call order. -/
def todosToolRun (sessions : Service) (sessionID : String) (params : TodosParams) :
    Except String String × List Session :=
  if sessionID = "" then
    (Except.error "session ID is required for managing todos", [])
  else
    match sessions.get sessionID with
    | Except.error e => (Except.error ("failed to get session: " ++ e), [])
    | Except.ok currentSession =>
      let todos := params.Todos.map convertTodoItem
      let updated := { currentSession with Todos := todos }
      match sessions.save updated with
      | Except.error e => (Except.error ("failed to save todos: " ++ e), [updated])
      | Except.ok _ =>
        let pendingCount := todos.countP (fun t => t.Status == TodoStatusPending)
        let inProgressCount := todos.countP (fun t => t.Status == TodoStatusInProgress)
        let completedCount := todos.countP (fun t => t.Status == TodoStatusCompleted)
        let response := "Todo list updated successfully.\n\n" ++
          "Status: " ++ toString pendingCount ++ " pending, " ++
          toString inProgressCount ++ " in progress, " ++
          toString completedCount ++ " completed\n"
        (Except.ok response, [updated])

/-! ## The DESIGN.md variant of the todos tool

`src/internal/vcs/DESIGN.md` ends with a second version of `NewTodosTool`
that additionally computes response metadata (is-new flag, just-completed
and just-started change detection, completed/total counts). -/

/-- Structure `TodosResponseMetadata` of the DESIGN.md variant. -/
structure TodosResponseMetadata where
  IsNew : Bool
  JustCompleted : List String
  JustStarted : String
  Completed : Nat
  Total : Nat
deriving DecidableEq, Repr

/-- Lookup in the `oldStatusByContent` Go map built from the previous todo
list: in Go map insertion, a later entry with the same content overwrites
an earlier one, so the last matching todo wins. -/
def oldStatusByContent (old : List Todo) (content : String) : Option TodoStatus :=
  (old.reverse.find? (fun t => t.Content == content)).map (fun t => t.Status)

/-- Accumulator of the conversion/change-detection loop of the DESIGN.md
variant (lines 503-536 of the combined file). -/
structure DesignAcc where
  todos : List Todo
  justCompleted : List String
  justStarted : String
  completedCount : Nat
deriving DecidableEq, Repr

/-- One iteration of the DESIGN.md conversion loop: convert the item, then
update the completed / started change-detection state exactly as the Go
loop body does. -/
def designStep (old : List Todo) (acc : DesignAcc) (item : TodoItem) : DesignAcc :=
  let todo := convertTodoItem item
  let newStatus : TodoStatus := item.Status
  let oldSt := oldStatusByContent old item.Content
  let acc := { acc with todos := acc.todos ++ [todo] }
  let acc :=
    if newStatus = TodoStatusCompleted then
      let acc := { acc with completedCount := acc.completedCount + 1 }
      match oldSt with
      | some s =>
        if s ≠ TodoStatusCompleted then
          { acc with justCompleted := acc.justCompleted ++ [item.Content] }
        else acc
      | none => acc
    else acc
  if newStatus = TodoStatusInProgress then
    match oldSt with
    | some s =>
      if s ≠ TodoStatusInProgress then
        { acc with justStarted := if item.ActiveForm ≠ "" then item.ActiveForm else item.Content }
      else acc
    | none =>
      { acc with justStarted := if item.ActiveForm ≠ "" then item.ActiveForm else item.Content }
  else acc

/-- The handler closure of the DESIGN.md `NewTodosTool` variant.  Returns
the response text together with its metadata, plus the list of sessions
passed to `sessions.Save`. -/
def todosToolRunDesign (sessions : Service) (sessionID : String) (params : TodosParams) :
    Except String (String × TodosResponseMetadata) × List Session :=
  if sessionID = "" then
    (Except.error "session ID is required for managing todos", [])
  else
    match sessions.get sessionID with
    | Except.error e => (Except.error ("failed to get session: " ++ e), [])
    | Except.ok currentSession =>
      let isNew := currentSession.Todos.length = 0
      let acc := params.Todos.foldl (designStep currentSession.Todos)
        { todos := [], justCompleted := [], justStarted := "", completedCount := 0 }
      let todos := acc.todos
      let updated := { currentSession with Todos := todos }
      match sessions.save updated with
      | Except.error e => (Except.error ("failed to save todos: " ++ e), [updated])
      | Except.ok _ =>
        let pendingCount := todos.countP (fun t => t.Status == TodoStatusPending)
        let inProgressCount := todos.countP (fun t => t.Status == TodoStatusInProgress)
        let response := "Todo list updated successfully.\n\n" ++
          "Status: " ++ toString pendingCount ++ " pending, " ++
          toString inProgressCount ++ " in progress, " ++
          toString acc.completedCount ++ " completed\n"
        let metadata : TodosResponseMetadata :=
          { IsNew := isNew, JustCompleted := acc.justCompleted,
            JustStarted := acc.justStarted, Completed := acc.completedCount,
            Total := todos.length }
        (Except.ok (response, metadata), [updated])

/-! ## Go string helpers

Executable embeddings of the Go standard-library string functions the
sampled code uses.  They are defined by structural recursion over the
character list so that concrete instances reduce in the kernel. -/

/-- Go `unicode.IsSpace` restricted to Latin-1 (space, tab, newline,
vertical tab, form feed, carriage return, NEL, NBSP); the further Unicode
space classes never occur in the inputs the sampled code feeds it. -/
def goIsSpace (c : Char) : Bool :=
  c = ' ' || c = '\t' || c = '\n' || c = '\u000B' || c = '\u000C' || c = '\r' ||
    c = '\u0085' || c = '\u00A0'

/-- Go `strings.TrimSpace`: drop leading and trailing white space. -/
def goTrimSpace (s : String) : String :=
  ⟨((s.data.dropWhile goIsSpace).reverse.dropWhile goIsSpace).reverse⟩

/-- Worker for `goFields`: split a character list around runs of white
space, accumulating the current field in reverse. -/
def goFieldsGo : List Char → List Char → List String
  | [], cur => if cur.isEmpty then [] else [⟨cur.reverse⟩]
  | c :: cs, cur =>
    if goIsSpace c then
      if cur.isEmpty then goFieldsGo cs [] else (⟨cur.reverse⟩ : String) :: goFieldsGo cs []
    else goFieldsGo cs (c :: cur)

/-- Go `strings.Fields`: the white-space-separated fields of a string. -/
def goFields (s : String) : List String :=
  goFieldsGo s.data []

/-- Go byte-level prefix `s[:n]`: keep the leading characters that fit in
`n` bytes.  (When `n` cuts a multi-byte character in half Go would keep an
invalid-UTF-8 fragment, which a Lean `String` cannot hold; that fragment is
dropped.  The sampled code only applies this to cut display text.) -/
def goByteTakeGo : List Char → Nat → List Char
  | [], _ => []
  | c :: cs, n => if c.utf8Size ≤ n then c :: goByteTakeGo cs (n - c.utf8Size) else []

/-- Go `s[:n]` on a string, byte-counting as `len` does. -/
def goByteTake (s : String) (n : Nat) : String :=
  ⟨goByteTakeGo s.data n⟩

/-! ## VCS status (`internal/vcs`, combined file of `DESIGN.md`)

`getGitStatus` shells out to git; the only pure logic the claims touch is
how the output of `git rev-list --left-right --count HEAD...@{u}` is turned
into the ahead/behind fields of `Status`. -/

namespace vcs

/-- Structure `vcs.Status`: the current state of a repository. -/
structure Status where
  HasUncommitted : Bool
  HasUntracked : Bool
  HasConflicts : Bool
  HasStaged : Bool
  AheadCount : Nat
  BehindCount : Nat
  CurrentBranch : String
  IsDetached : Bool
  HasUnpushed : Bool
  RemoteTrackingOK : Bool
deriving DecidableEq, Repr

/-- The Go zero value `Status{}` that `getGitStatus` starts from. -/
def Status.init : Status :=
  { HasUncommitted := false, HasUntracked := false, HasConflicts := false,
    HasStaged := false, AheadCount := 0, BehindCount := 0, CurrentBranch := "",
    IsDetached := false, HasUnpushed := false, RemoteTrackingOK := false }

/-- The ahead/behind step of `getGitStatus` (lines 356-369 of the combined
`DESIGN.md` file): given the status accumulated so far and the output of a
successful `git rev-list --left-right --count` run, set
`RemoteTrackingOK`, then, when the output has exactly two fields, set
`AheadCount`/`BehindCount` to the byte length (`len`) of each non-`"0"`
field — the "Simple approximation" of the source — and `HasUnpushed` when
ahead. -/
def applyRevListOutput (st : Status) (output : String) : Status :=
  let st := { st with RemoteTrackingOK := true }
  match goFields (goTrimSpace output) with
  | [p0, p1] =>
    let ahead := goTrimSpace p0
    let st :=
      if ahead ≠ "0" then { st with AheadCount := ahead.utf8ByteSize, HasUnpushed := true }
      else st
    let behind := goTrimSpace p1
    if behind ≠ "0" then { st with BehindCount := behind.utf8ByteSize } else st
  | _ => st

/-- Decimal digit accumulator for the spec-side integer parse. -/
def parseDecimalGo : List Char → Nat → Option Nat
  | [], acc => some acc
  | c :: cs, acc =>
    if c.isDigit then parseDecimalGo cs (acc * 10 + (c.toNat - 48)) else none

/-- Parse a non-empty all-digit string as a decimal natural number. -/
def parseDecimal (s : String) : Option Nat :=
  if s.data.isEmpty then none else parseDecimalGo s.data 0

/-- Modelled from the spec: "an implementation should parse the counts as
integers rather than reproduce the approximation" — the intended
ahead/behind extraction, parsing the two fields of the `git rev-list`
output as integers. -/
def specParseAheadBehind (output : String) : Option (Nat × Nat) :=
  match goFields (goTrimSpace output) with
  | [p0, p1] =>
    match parseDecimal (goTrimSpace p0), parseDecimal (goTrimSpace p1) with
    | some a, some b => some (a, b)
    | _, _ => none
  | _ => none

end vcs

/-! ## Todo pill rendering (`internal/tui/page/chat/pills.go`)

`todoPill` builds a styled one-line progress pill.  The lipgloss theme
styling (colors, padding, borders) decorates the text without dropping it
and is external to this repository; every `Render` call and styled
fragment is embedded as the identity on its content. -/

/-- The task-text computation of `todoPill` (`pills.go` lines 67-73): show
the active form when present, otherwise the content, cut to 39 bytes plus
an ellipsis when longer than 40 bytes (`len` counts bytes in Go). -/
def taskTextOf (cur : Todo) : String :=
  let taskText := cur.Content
  let taskText := if cur.ActiveForm ≠ "" then cur.ActiveForm else taskText
  if taskText.utf8ByteSize > 40 then goByteTake taskText 39 ++ "…" else taskText

/-- Function `todoPill` of `pills.go` lines 34-87: empty for an empty list;
otherwise counts completed items, finds the first in-progress item, and
assembles `prefix`/`label`/`progress`/task text according to focus state.
The `focused` parameter only selects a border style in the source and is
unused here. -/
def todoPill (todos : List Todo) (spinnerView : String)
    (focused pillsPanelFocused : Bool) : String :=
  if todos.length = 0 then ""
  else
    let completed := todos.countP (fun t => t.Status == TodoStatusCompleted)
    let currentTodo := todos.find? (fun t => t.Status == TodoStatusInProgress)
    let total := todos.length
    let allDone := completed = total
    let pre := if allDone then "✓" ++ " " else ""
    let label := "To-Do"
    let progress := toString completed ++ "/" ++ toString total
    if pillsPanelFocused then pre ++ label ++ " " ++ progress
    else
      match currentTodo with
      | some cur => spinnerView ++ " " ++ label ++ " " ++ progress ++ "  " ++ taskTextOf cur
      | none => pre ++ label ++ " " ++ progress

/-! ## Message Queue (spec §4.2)

The Message Queue source is not part of the excerpt; it is modelled from
the specification as a per-session transition system.  A state tracks the
pending entries, the "turn in progress" flag, and — for stating invariant
(a) — the number of Turn Engine executions currently active for the
session.  Each event is atomic; a wall-clock instant of an execution is a
reachable state of the system. -/

/-- Modelled from the spec: a QueueEntry is a pending user action (§3);
its payload is irrelevant to the queue discipline and kept as a string. -/
abbrev QueueEntry := String

/-- Modelled from the spec: the two events that drive one session's
Message Queue — `Enqueue(entry)` from the Coordinator and
`OnTurnComplete()` from the Turn Engine (§4.2). -/
inductive QEvent where
  | enqueue (e : QueueEntry)
  | turnComplete
deriving DecidableEq, Repr

/-- Modelled from the spec: one session's queue state — the ordered pending
entries, the boolean "turn in progress" flag (§4.2), and the number of Turn
Engine executions currently active for the session. -/
structure QueueState where
  pending : List QueueEntry
  turnInProgress : Bool
  activeTurns : Nat
deriving DecidableEq, Repr

/-- The idle initial state of a freshly allocated queue. -/
def initQueue : QueueState :=
  { pending := [], turnInProgress := false, activeTurns := 0 }

/-- Modelled from the spec: `Enqueue` appends; if no turn is in progress it
immediately dequeues the front entry and starts a Turn.  `OnTurnComplete`
ends the active Turn, clears the in-progress flag and, if entries remain,
dequeues the next one and starts a new Turn (§4.2).  A spurious
`OnTurnComplete` with no active turn is ignored (the Turn Engine reports a
terminal state exactly once, §4.3). -/
def queueStep (s : QueueState) (ev : QEvent) : QueueState :=
  match ev with
  | QEvent.enqueue e =>
    let pending := s.pending ++ [e]
    if s.turnInProgress then
      { s with pending := pending }
    else
      { pending := pending.drop 1, turnInProgress := true, activeTurns := s.activeTurns + 1 }
  | QEvent.turnComplete =>
    if s.activeTurns = 0 then s
    else
      match s.pending with
      | [] => { pending := [], turnInProgress := false, activeTurns := s.activeTurns - 1 }
      | _ :: rest =>
        { pending := rest, turnInProgress := true, activeTurns := s.activeTurns - 1 + 1 }

/-- Run a session's queue from idle over a sequence of events. -/
def runQueue (evs : List QEvent) : QueueState :=
  evs.foldl queueStep initQueue

/-! ## Context Window Manager (spec §4.5)

The Context Window Manager source is not part of the excerpt; its overflow
policy is modelled from the specification. -/

/-- Total estimated size of a message log: the sum of the per-Message
token-size estimates (§4.5). -/
def totalSize (log : List Message) : Nat :=
  (log.map (fun m => m.sizeEstimate)).sum

/-- Modelled from the spec: the overflow policy of the Context Window
Manager (§4.5) — when the estimated size exceeds the high-water threshold
`hi`, select the oldest contiguous run of Messages excluding the most
recent `K`, synthesize a single summary Message covering them (the
summarization request to the LLM collaborator enters as the `summarize`
argument), and splice it in place of the originals.  The most recent `K`
messages are never summarized away, so a log that does not extend beyond
them is left alone. -/
def compact (summarize : List Message → Message) (hi K : Nat)
    (log : List Message) : List Message :=
  if totalSize log ≤ hi then log
  else if log.length ≤ K then log
  else summarize (log.take (log.length - K)) :: log.drop (log.length - K)

/-! ## Background job registry (spec §4.4)

The Tool Executor's job registry source is not part of the excerpt; it is
modelled from the specification.  Only the running/exited state of a job
matters to the `JobKill` claims; Go map semantics make the registry a
function from identifiers to at most one job state. -/

/-- Modelled from the spec: a BackgroundJob is in running or exited
state (§3). -/
inductive JobState where
  | running
  | exited
deriving DecidableEq, Repr

/-- Modelled from the spec: the shared job registry, keyed by job
identifier (§4.4). -/
def JobRegistry := String → Option JobState

/-- Modelled from the spec: `JobKill(jobID)` — kill the job if it is still
running, a no-op if it has already exited (idempotent, not an error), and
an unknown-job error only when the identifier was never registered (§4.4).
Returns the updated registry and `true` for success. -/
def JobKill (reg : JobRegistry) (id : String) : JobRegistry × Bool :=
  match reg id with
  | some _ => (fun k => if k = id then some JobState.exited else reg k, true)
  | none => (reg, false)

/-! ## Todo sorting (`internal/tui/page/chat/pills.go` lines 127-145)

`sortTodos` sorts a todo slice in place with an index-based
exchange sort: for each `i`, every later position `j` is compared and
swapped when the earlier element's status ranks strictly later.  The two
nested loops are embedded as two well-founded recursions over the array. -/

/-- Function `statusOrder` of `sortTodos`: completed first, in-progress second,
anything else (pending or unrecognized) last. -/
def statusOrder (s : TodoStatus) : Nat :=
  if s = TodoStatusCompleted then 0
  else if s = TodoStatusInProgress then 1
  else 2

/-- The inner loop of `sortTodos`: `for j := i + 1; j < len(todos); j++`,
swapping `todos[i]` and `todos[j]` when
`statusOrder(todos[i].Status) > statusOrder(todos[j].Status)`. -/
def sortInner (a : Array Todo) (i j : Nat) : Array Todo :=
  if h : j < a.size then
    if hi : i < a.size then
      sortInner
        (if statusOrder (a.get ⟨i, hi⟩).Status > statusOrder (a.get ⟨j, h⟩).Status
         then a.swap ⟨i, hi⟩ ⟨j, h⟩ else a)
        i (j + 1)
    else a
  else a
termination_by a.size - j
decreasing_by
  split
  · simp only [Array.size_swap]
    omega
  · omega

/-- Lemma: `sortInner` never changes the array's size. -/
theorem sortInner_size (a : Array Todo) (i j : Nat) : (sortInner a i j).size = a.size := by
  induction a, i, j using sortInner.induct with
  | case1 a i j h hi ih =>
    rw [sortInner]
    simp only [dif_pos h, dif_pos hi]
    simp only [dite_eq_ite] at ih
    rw [ih]
    split
    · exact Array.size_swap ..
    · rfl
  | case2 a i j h hi =>
    rw [sortInner]
    simp only [dif_pos h, dif_neg hi]
  | case3 a i j h =>
    rw [sortInner]
    simp only [dif_neg h]

/-- The outer loop of `sortTodos`: `for i := 0; i < len(todos)-1; i++`,
running the inner loop from `i + 1`. -/
def sortOuter (a : Array Todo) (i : Nat) : Array Todo :=
  if h : i + 1 < a.size then
    sortOuter (sortInner a i (i + 1)) (i + 1)
  else a
termination_by a.size - i
decreasing_by
  simp only [sortInner_size]
  omega

/-- Function `sortTodos` of `pills.go`: the full exchange sort, starting the outer
loop at index 0. -/
def sortTodos (a : Array Todo) : Array Todo :=
  sortOuter a 0

/-- Moving the `k`-th element of a list to the front while writing `x` into
position `k` permutes consing `x` in front. -/
theorem getElem_cons_set_perm {α : Type u} (t : List α) :
    ∀ (k : Nat) (hk : k < t.length) (x : α), (t[k] :: t.set k x).Perm (x :: t) := by
  induction t with
  | nil => intro k hk x; simp at hk
  | cons y s ih =>
    intro k hk x
    cases k with
    | zero =>
      simp only [List.getElem_cons_zero, List.set_cons_zero]
      exact List.Perm.swap x y s
    | succ m =>
      simp only [List.getElem_cons_succ, List.set_cons_succ]
      have hm : m < s.length := by simpa using hk
      have p1 : (s[m] :: y :: s.set m x).Perm (y :: s[m] :: s.set m x) :=
        List.Perm.swap y (s[m]) (s.set m x)
      have p3 : (y :: s[m] :: s.set m x).Perm (y :: x :: s) :=
        List.Perm.cons y (ih m hm x)
      exact (p1.trans p3).trans (List.Perm.swap x y s)

/-- Exchanging two positions of a list is a permutation. -/
theorem set_set_perm {α : Type u} (l : List α) :
    ∀ (i j : Nat) (hi : i < l.length) (hj : j < l.length),
      ((l.set i l[j]).set j l[i]).Perm l := by
  induction l with
  | nil => intro i j hi hj; simp at hi
  | cons x t ih =>
    intro i j hi hj
    cases i with
    | zero =>
      cases j with
      | zero => simp
      | succ m =>
        simp only [List.getElem_cons_succ, List.getElem_cons_zero, List.set_cons_zero,
          List.set_cons_succ]
        exact getElem_cons_set_perm t m (by simpa using hj) x
    | succ n =>
      cases j with
      | zero =>
        simp only [List.getElem_cons_succ, List.getElem_cons_zero, List.set_cons_zero,
          List.set_cons_succ]
        exact getElem_cons_set_perm t n (by simpa using hi) x
      | succ m =>
        simp only [List.set_cons_succ, List.getElem_cons_succ]
        exact List.Perm.cons x (ih n m (by simpa using hi) (by simpa using hj))

/-- An array swap permutes the underlying list. -/
theorem swap_toList_perm {α : Type u} (a : Array α) (i j : Fin a.size) :
    ((a.swap i j).toList).Perm a.toList := by
  rw [Array.toList_swap]
  have hi : i.val < a.toList.length := by simp [i.isLt]
  have hj : j.val < a.toList.length := by simp [j.isLt]
  have hgi : a.get i = a.toList[i.val] := rfl
  have hgj : a.get j = a.toList[j.val] := rfl
  rw [hgi, hgj]
  exact set_set_perm a.toList i.val j.val hi hj

/-- The inner loop of `sortTodos` permutes the array. -/
theorem sortInner_perm (a : Array Todo) (i j : Nat) :
    ((sortInner a i j).toList).Perm a.toList := by
  induction a, i, j using sortInner.induct with
  | case1 a i j h hi ih =>
    rw [sortInner]
    simp only [dif_pos h, dif_pos hi]
    simp only [dite_eq_ite] at ih
    refine ih.trans ?_
    split
    · exact swap_toList_perm a ⟨i, hi⟩ ⟨j, h⟩
    · exact List.Perm.refl _
  | case2 a i j h hi =>
    rw [sortInner]
    simp only [dif_pos h, dif_neg hi]
    exact List.Perm.refl _
  | case3 a i j h =>
    rw [sortInner]
    simp only [dif_neg h]
    exact List.Perm.refl _

/-- The outer loop of `sortTodos` permutes the array. -/
theorem sortOuter_perm (a : Array Todo) (i : Nat) :
    ((sortOuter a i).toList).Perm a.toList := by
  induction a, i using sortOuter.induct with
  | case1 a i h ih =>
    rw [sortOuter]
    simp only [dif_pos h]
    exact ih.trans (sortInner_perm a i (i + 1))
  | case2 a i h =>
    rw [sortOuter]
    simp only [dif_neg h]
    exact List.Perm.refl _

/-- Lemma: `sortOuter` never changes the array's size. -/
theorem sortOuter_size (a : Array Todo) (i : Nat) : (sortOuter a i).size = a.size := by
  induction a, i using sortOuter.induct with
  | case1 a i h ih =>
    rw [sortOuter]
    simp only [dif_pos h]
    rw [ih, sortInner_size]
  | case2 a i h =>
    rw [sortOuter]
    simp only [dif_neg h]

/-- The zero value of `session.Todo`, used only as the out-of-bounds
default of the total index function `getT`. -/
def defaultTodo : Todo := { Content := "", Status := "", ActiveForm := "" }

/-- Total position read on a todo array (out-of-bounds positions read the
default); only in-bounds positions matter in every statement below. -/
def getT (a : Array Todo) (k : Nat) : Todo :=
  a.getD k defaultTodo

/-- Status rank of the element at position `k`. -/
def keyT (a : Array Todo) (k : Nat) : Nat :=
  statusOrder (getT a k).Status

/-- In bounds, `getT` is the array read. -/
theorem getT_get (a : Array Todo) (k : Nat) (hk : k < a.size) :
    getT a k = a.get ⟨k, hk⟩ := by
  simp [getT, Array.getD, hk]

/-- How a swap acts on `getT`. -/
theorem getT_swap (a : Array Todo) (i j : Fin a.size) (k : Nat) :
    getT (a.swap i j) k =
      if k = i.val then getT a j.val else if k = j.val then getT a i.val else getT a k := by
  by_cases hk : k < a.size
  · have hk2 : k < (a.swap i j).size := by simpa [Array.size_swap] using hk
    rw [getT_get _ _ hk2, getT_get _ _ hk]
    have := Array.getElem_swap a i j k hk2
    rw [Array.get_eq_getElem, Array.get_eq_getElem, this]
    rw [getT_get _ _ i.isLt, getT_get _ _ j.isLt]
    split
    · rfl
    · split
      · rfl
      · rfl
  · have hki : k ≠ i.val := by have := i.isLt; omega
    have hkj : k ≠ j.val := by have := j.isLt; omega
    have hk2 : ¬ k < (a.swap i j).size := by simpa [Array.size_swap] using hk
    simp [getT, Array.getD, hk, hk2, hki, hkj]

/-- Equal reads give equal keys. -/
theorem keyT_eq_of_getT {b a : Array Todo} {p q : Nat} (h : getT b p = getT a q) :
    keyT b p = keyT a q := by
  simp only [keyT]
  rw [h]

/-- Main invariant of the inner loop: positions before `j` other than `i`
are untouched; if `todos[i]` already ranks no later than the positions
strictly between `i` and `j`, then afterwards it ranks no later than every
position after `i`; and dominance of the prefix before `i` over the region
from `i` on is preserved. -/
theorem sortInner_main (a : Array Todo) (i j : Nat) :
    i < j → i < a.size →
    (∀ k, i < k → k < j → k < a.size → keyT a i ≤ keyT a k) →
    (∀ p k, p < i → i ≤ k → k < a.size → keyT a p ≤ keyT a k) →
    (∀ k, k < j → k ≠ i → getT (sortInner a i j) k = getT a k) ∧
    (∀ k, i < k → k < a.size → keyT (sortInner a i j) i ≤ keyT (sortInner a i j) k) ∧
    (∀ p k, p < i → i ≤ k → k < a.size → keyT (sortInner a i j) p ≤ keyT (sortInner a i j) k) := by
  induction a, i, j using sortInner.induct with
  | case1 a i j h hi2 ih =>
    intro hij hi h1 h2
    rw [sortInner]
    simp only [dif_pos h, dif_pos hi2]
    simp only [dite_eq_ite] at ih
    set b := if statusOrder (a.get ⟨i, hi2⟩).Status > statusOrder (a.get ⟨j, h⟩).Status
      then a.swap ⟨i, hi2⟩ ⟨j, h⟩ else a with hb
    have hbsize : b.size = a.size := by
      rw [hb]
      split
      · exact Array.size_swap ..
      · rfl
    have hgb : ∀ k, k ≠ i → k ≠ j → getT b k = getT a k := by
      intro k hki hkj
      rw [hb]
      split
      · rw [getT_swap]
        simp [hki, hkj]
      · rfl
    have hbij : (getT b i = getT a i ∧ getT b j = getT a j ∧ keyT a i ≤ keyT a j) ∨
        (getT b i = getT a j ∧ getT b j = getT a i ∧ keyT a j < keyT a i) := by
      have hkeyi : keyT a i = statusOrder (a.get ⟨i, hi2⟩).Status := by
        simp only [keyT]
        rw [getT_get a i hi2]
      have hkeyj : keyT a j = statusOrder (a.get ⟨j, h⟩).Status := by
        simp only [keyT]
        rw [getT_get a j h]
      rw [hb]
      split
      · next hc =>
        right
        refine ⟨?_, ?_, ?_⟩
        · rw [getT_swap]
          simp
        · rw [getT_swap]
          have : j ≠ i := by omega
          simp [this]
        · rw [hkeyi, hkeyj]
          omega
      · next hc =>
        left
        refine ⟨rfl, rfl, ?_⟩
        rw [hkeyi, hkeyj]
        omega
    have hij1 : i < j + 1 := by omega
    have hi1 : i < b.size := by rw [hbsize]; exact hi
    have h1b : ∀ k, i < k → k < j + 1 → k < b.size → keyT b i ≤ keyT b k := by
      intro k hik hkj1 hkb
      have hka : k < a.size := by rwa [hbsize] at hkb
      rcases Nat.lt_or_ge k j with hkj | hkj
      · have e1 : getT b k = getT a k := hgb k (by omega) (by omega)
        rcases hbij with ⟨ei, _, _⟩ | ⟨ei, _, hlt⟩
        · rw [keyT_eq_of_getT ei, keyT_eq_of_getT e1]
          exact h1 k hik hkj hka
        · rw [keyT_eq_of_getT ei, keyT_eq_of_getT e1]
          have := h1 k hik hkj hka
          omega
      · have hkj' : k = j := by omega
        subst hkj'
        rcases hbij with ⟨ei, ej, hle⟩ | ⟨ei, ej, hlt⟩
        · rw [keyT_eq_of_getT ei, keyT_eq_of_getT ej]
          exact hle
        · rw [keyT_eq_of_getT ei, keyT_eq_of_getT ej]
          omega
    have h2b : ∀ p k, p < i → i ≤ k → k < b.size → keyT b p ≤ keyT b k := by
      intro p k hpi hik hkb
      have hka : k < a.size := by rwa [hbsize] at hkb
      have ep : getT b p = getT a p := hgb p (by omega) (by omega)
      by_cases hki : k = i
      · subst hki
        rcases hbij with ⟨ei, _, _⟩ | ⟨ei, _, _⟩
        · rw [keyT_eq_of_getT ep, keyT_eq_of_getT ei]
          exact h2 p k hpi hik hka
        · rw [keyT_eq_of_getT ep, keyT_eq_of_getT ei]
          exact h2 p j hpi (by omega) h
      · by_cases hkj : k = j
        · subst hkj
          rcases hbij with ⟨_, ej, _⟩ | ⟨_, ej, _⟩
          · rw [keyT_eq_of_getT ep, keyT_eq_of_getT ej]
            exact h2 p k hpi hik hka
          · rw [keyT_eq_of_getT ep, keyT_eq_of_getT ej]
            exact h2 p i hpi (le_refl i) hi
        · have ek : getT b k = getT a k := hgb k hki hkj
          rw [keyT_eq_of_getT ep, keyT_eq_of_getT ek]
          exact h2 p k hpi hik hka
    obtain ⟨f, m, d⟩ := ih hij1 hi1 h1b h2b
    refine ⟨?_, ?_, ?_⟩
    · intro k hkj hki
      rw [f k (by omega) hki]
      exact hgb k hki (by omega)
    · intro k hik hka
      exact m k hik (by rw [hbsize]; exact hka)
    · intro p k hpi hik hka
      exact d p k hpi hik (by rw [hbsize]; exact hka)
  | case2 a i j h hi2 =>
    intro hij hi h1 h2
    exact absurd hi hi2
  | case3 a i j h =>
    intro hij hi h1 h2
    rw [sortInner]
    simp only [dif_neg h]
    refine ⟨fun k _ _ => trivial, fun k hik hka => h1 k hik (by omega) hka, h2⟩

/-- Main invariant of the outer loop: a sorted-below-`i` prefix that
dominates the rest of the array is extended to full sortedness. -/
theorem sortOuter_main (a : Array Todo) (i : Nat) :
    (∀ p q, p < q → q < i → q < a.size → keyT a p ≤ keyT a q) →
    (∀ p k, p < i → i ≤ k → k < a.size → keyT a p ≤ keyT a k) →
    ∀ p q, p < q → q < (sortOuter a i).size →
      keyT (sortOuter a i) p ≤ keyT (sortOuter a i) q := by
  induction a, i using sortOuter.induct with
  | case1 a i h ih =>
    intro hbelow hdom
    rw [sortOuter]
    simp only [dif_pos h]
    have hi : i < a.size := by omega
    obtain ⟨f, m, d⟩ := sortInner_main a i (i + 1) (by omega) hi
      (fun k hik hki1 hka => by omega) hdom
    have hbsize : (sortInner a i (i + 1)).size = a.size := sortInner_size a i (i + 1)
    apply ih
    · intro p q hpq hqi1 hqb
      have hqa : q < a.size := by rwa [hbsize] at hqb
      by_cases hqi : q = i
      · subst hqi
        exact d p q hpq (le_refl q) hqa
      · have hq : q < i := by omega
        have e1 : getT (sortInner a i (i + 1)) p = getT a p := f p (by omega) (by omega)
        have e2 : getT (sortInner a i (i + 1)) q = getT a q := f q (by omega) (by omega)
        rw [keyT_eq_of_getT e1, keyT_eq_of_getT e2]
        exact hbelow p q hpq hq hqa
    · intro p k hpi1 hik1 hkb
      have hka : k < a.size := by rwa [hbsize] at hkb
      by_cases hpi : p = i
      · subst hpi
        exact m k (by omega) hka
      · exact d p k (by omega) (by omega) hka
  | case2 a i h =>
    intro hbelow hdom p q hpq hq
    rw [sortOuter] at hq ⊢
    simp only [dif_neg h] at hq ⊢
    by_cases hqi : q = i
    · subst hqi
      exact hdom p q hpq (le_refl q) hq
    · exact hbelow p q hpq (by omega) hq

/-- The array produced by `sortTodos` is sorted by status rank. -/
theorem sortTodos_sorted (a : Array Todo) :
    ∀ p q, p < q → q < (sortTodos a).size →
      keyT (sortTodos a) p ≤ keyT (sortTodos a) q := by
  exact sortOuter_main a 0 (fun p q hpq hq0 hqa => by omega)
    (fun p k hp0 hik hka => by omega)

/-- On an already-sorted array the inner loop performs no swap. -/
theorem sortInner_of_sorted (a : Array Todo) (i j : Nat) :
    i < j →
    (∀ p q, p < q → q < a.size → keyT a p ≤ keyT a q) →
    sortInner a i j = a := by
  induction a, i, j using sortInner.induct with
  | case1 a i j h hi2 ih =>
    intro hij hsorted
    rw [sortInner]
    simp only [dif_pos h, dif_pos hi2]
    simp only [dite_eq_ite] at ih
    have hle : statusOrder (a.get ⟨i, hi2⟩).Status ≤ statusOrder (a.get ⟨j, h⟩).Status := by
      have := hsorted i j hij h
      simp only [keyT] at this
      rw [getT_get a i hi2, getT_get a j h] at this
      exact this
    have hnot : ¬ statusOrder (a.get ⟨i, hi2⟩).Status > statusOrder (a.get ⟨j, h⟩).Status := by
      omega
    have hx : (if statusOrder (a.get ⟨i, hi2⟩).Status > statusOrder (a.get ⟨j, h⟩).Status
        then a.swap ⟨i, hi2⟩ ⟨j, h⟩ else a) = a := if_neg hnot
    rw [hx] at ih ⊢
    exact ih (by omega) hsorted
  | case2 a i j h hi2 =>
    intro hij hsorted
    rw [sortInner]
    simp only [dif_pos h, dif_neg hi2]
  | case3 a i j h =>
    intro hij hsorted
    rw [sortInner]
    simp only [dif_neg h]

/-- On an already-sorted array the outer loop performs no swap. -/
theorem sortOuter_of_sorted (a : Array Todo) (i : Nat) :
    (∀ p q, p < q → q < a.size → keyT a p ≤ keyT a q) →
    sortOuter a i = a := by
  induction a, i using sortOuter.induct with
  | case1 a i h ih =>
    intro hsorted
    rw [sortOuter]
    simp only [dif_pos h]
    have hx : sortInner a i (i + 1) = a := sortInner_of_sorted a i (i + 1) (by omega) hsorted
    rw [hx] at ih ⊢
    exact ih hsorted
  | case2 a i h =>
    intro hsorted
    rw [sortOuter]
    simp only [dif_neg h]

/-- Lemma: `sortTodos` leaves an already-sorted array unchanged. -/
theorem sortTodos_of_sorted (a : Array Todo) :
    (∀ p q, p < q → q < a.size → keyT a p ≤ keyT a q) →
    sortTodos a = a := by
  intro hsorted
  exact sortOuter_of_sorted a 0 hsorted

/-! ## Concrete inputs used by the witnesses -/

/-- A concrete stored session with one pre-existing todo. -/
def sessW : Session :=
  { ID := "s1", Messages := [], TurnState := "idle",
    Todos := [{ Content := "old", Status := "pending", ActiveForm := "o" }] }

/-- A concrete service whose `Get` succeeds with `sessW` and whose `Save`
succeeds. -/
def svcW : Service :=
  { get := fun _ => Except.ok sessW, save := fun s => Except.ok s }

/-- A concrete service whose `Get` fails. -/
def svcErrW : Service :=
  { get := fun _ => Except.error "db down", save := fun s => Except.ok s }

/-- A concrete parameter list with a single pending item. -/
def paramsW : TodosParams :=
  { Todos := [{ Content := "write tests", Status := "pending", ActiveForm := "Writing tests" }] }

/-- The session `paramsW` makes the handler save on top of `sessW`. -/
def savedW : Session :=
  { ID := "s1", Messages := [], TurnState := "idle",
    Todos := [{ Content := "write tests", Status := "pending", ActiveForm := "Writing tests" }] }

/-- The response text both handler variants produce for `paramsW`. -/
def respW : String :=
  "Todo list updated successfully.\n\nStatus: 1 pending, 0 in progress, 0 completed\n"

/-- The metadata the DESIGN.md variant produces for `paramsW` on `sessW`. -/
def metaW : TodosResponseMetadata :=
  { IsNew := false, JustCompleted := [], JustStarted := "", Completed := 0, Total := 1 }

/-- A concrete todo list with one completed and one pending item. -/
def todosW : List Todo :=
  [{ Content := "a", Status := "completed", ActiveForm := "" },
   { Content := "b", Status := "pending", ActiveForm := "" }]

/-- A concrete already-sorted todo array holding all three statuses. -/
def aSortedW : Array Todo :=
  #[{ Content := "c", Status := "completed", ActiveForm := "" },
    { Content := "i", Status := "in_progress", ActiveForm := "" },
    { Content := "p", Status := "pending", ActiveForm := "" }]

/-- A concrete message log of ten unit-sized messages. -/
def logW : List Message :=
  List.replicate 10 { role := "user", content := "m", sizeEstimate := 1 }

/-- A concrete summarizer returning a fixed summary message. -/
def sumW : List Message → Message :=
  fun _ => { role := "assistant", content := "summary", sizeEstimate := 1 }

/-- A concrete job registry holding one already-exited job. -/
def regW : JobRegistry :=
  fun k => if k = "j1" then some JobState.exited else none

/-! ## Facts about the todos tool handlers -/

/-- When the session-ID guard and `Get` succeed, the handler saves exactly
one session: the fetched one with its todo list replaced by the converted
parameters.  This holds whether or not `Save` itself succeeds. -/
theorem todosToolRun_saves (svc : Service) (sessionID : String) (params : TodosParams)
    (sess : Session) (hsid : sessionID ≠ "") (hget : svc.get sessionID = Except.ok sess) :
    (todosToolRun svc sessionID params).2 =
      [{ sess with Todos := params.Todos.map convertTodoItem }] := by
  simp only [todosToolRun, if_neg hsid, hget]
  split <;> rfl

/-- With an empty session ID the handler saves nothing and errors. -/
theorem todosToolRun_empty_sid (svc : Service) (params : TodosParams) :
    todosToolRun svc "" params =
      (Except.error "session ID is required for managing todos", []) := rfl

/-- When `Get` fails the handler propagates the error and saves nothing. -/
theorem todosToolRun_get_error (svc : Service) (sessionID : String) (params : TodosParams)
    (e : String) (hsid : sessionID ≠ "") (hget : svc.get sessionID = Except.error e) :
    todosToolRun svc sessionID params =
      (Except.error ("failed to get session: " ++ e), []) := by
  simp only [todosToolRun, if_neg hsid, hget]

/-- C4: whenever the todos tool handler reaches the `Save` call, the
session it passes to `sessions.Save` differs from the one returned by
`sessions.Get` only in its `Todos` field — identity, message log and
turn state are passed through unchanged. -/
theorem C4_saved_session_frame (svc : Service) (sessionID : String) (params : TodosParams)
    (sess : Session) (hget : svc.get sessionID = Except.ok sess) :
    ∀ s ∈ (todosToolRun svc sessionID params).2,
      s.ID = sess.ID ∧ s.Messages = sess.Messages ∧ s.TurnState = sess.TurnState ∧
      s.Todos = params.Todos.map convertTodoItem := by
  by_cases hsid : sessionID = ""
  · intro s hs
    subst hsid
    rw [todosToolRun_empty_sid] at hs
    simp at hs
  · intro s hs
    rw [todosToolRun_saves svc sessionID params sess hsid hget] at hs
    have hs2 : s = { sess with Todos := params.Todos.map convertTodoItem } := by
      simpa using hs
    subst hs2
    exact ⟨rfl, rfl, rfl, rfl⟩

/-- Witness for C4 at a concrete service, session and parameter list. -/
theorem C4_saved_session_frame_witness :
    svcW.get "s1" = Except.ok sessW ∧
    savedW ∈ (todosToolRun svcW "s1" paramsW).2 ∧
    (savedW.ID = sessW.ID ∧ savedW.Messages = sessW.Messages ∧
      savedW.TurnState = sessW.TurnState ∧
      savedW.Todos = paramsW.Todos.map convertTodoItem) :=
  ⟨rfl, by decide,
    C4_saved_session_frame svcW "s1" paramsW sessW rfl savedW (by decide)⟩

/-- C5: the todo list the handler writes to the session has the same
length and order as `params.Todos`, and position by position carries the
same content, status (the `session.TodoStatus` cast of the parameter's
status string) and active form. -/
theorem C5_saved_todos_match_params (svc : Service) (sessionID : String)
    (params : TodosParams) :
    ∀ s ∈ (todosToolRun svc sessionID params).2,
      s.Todos.length = params.Todos.length ∧
      ∀ i (h1 : i < s.Todos.length) (h2 : i < params.Todos.length),
        (s.Todos.get ⟨i, h1⟩).Content = (params.Todos.get ⟨i, h2⟩).Content ∧
        (s.Todos.get ⟨i, h1⟩).Status = (params.Todos.get ⟨i, h2⟩).Status ∧
        (s.Todos.get ⟨i, h1⟩).ActiveForm = (params.Todos.get ⟨i, h2⟩).ActiveForm := by
  intro s hs
  by_cases hsid : sessionID = ""
  · subst hsid
    rw [todosToolRun_empty_sid] at hs
    simp at hs
  · cases hget : svc.get sessionID with
    | error e =>
      rw [todosToolRun_get_error svc sessionID params e hsid hget] at hs
      simp at hs
    | ok sess =>
      rw [todosToolRun_saves svc sessionID params sess hsid hget] at hs
      have hs2 : s = { sess with Todos := params.Todos.map convertTodoItem } := by
        simpa using hs
      subst hs2
      refine ⟨by simp, ?_⟩
      intro i h1 h2
      simp [List.get_eq_getElem, convertTodoItem]

/-- Witness for C5 at a concrete service and parameter list, checked at
index 0. -/
theorem C5_saved_todos_match_params_witness :
    savedW ∈ (todosToolRun svcW "s1" paramsW).2 ∧
    savedW.Todos.length = paramsW.Todos.length ∧
    (savedW.Todos.get ⟨0, by decide⟩).Content =
      (paramsW.Todos.get ⟨0, by decide⟩).Content :=
  ⟨by decide,
    (C5_saved_todos_match_params svcW "s1" paramsW savedW (by decide)).1,
    ((C5_saved_todos_match_params svcW "s1" paramsW savedW (by decide)).2 0
      (by decide) (by decide)).1⟩

/-- C10: when the context carries no session ID or the session lookup
fails, the handler returns an error and performs no `Save` call, so the
stored session is unchanged. -/
theorem C10_no_save_on_error (svc : Service) (sessionID : String) (params : TodosParams)
    (herr : sessionID = "" ∨ ∃ e, svc.get sessionID = Except.error e) :
    (∃ msg, (todosToolRun svc sessionID params).1 = Except.error msg) ∧
    (todosToolRun svc sessionID params).2 = [] := by
  rcases herr with hsid | ⟨e, hget⟩
  · subst hsid
    rw [todosToolRun_empty_sid]
    exact ⟨⟨"session ID is required for managing todos", rfl⟩, rfl⟩
  · by_cases hsid : sessionID = ""
    · subst hsid
      rw [todosToolRun_empty_sid]
      exact ⟨⟨"session ID is required for managing todos", rfl⟩, rfl⟩
    · rw [todosToolRun_get_error svc sessionID params e hsid hget]
      exact ⟨⟨"failed to get session: " ++ e, rfl⟩, rfl⟩

/-- Witness for C10 at a concrete failing service. -/
theorem C10_no_save_on_error_witness :
    ("x" = "" ∨ ∃ e, svcErrW.get "x" = Except.error e) ∧
    (∃ msg, (todosToolRun svcErrW "x" paramsW).1 = Except.error msg) ∧
    (todosToolRun svcErrW "x" paramsW).2 = [] :=
  ⟨Or.inr ⟨"db down", rfl⟩,
    (C10_no_save_on_error svcErrW "x" paramsW (Or.inr ⟨"db down", rfl⟩)).1,
    (C10_no_save_on_error svcErrW "x" paramsW (Or.inr ⟨"db down", rfl⟩)).2⟩

/-- The DESIGN.md conversion loop appends exactly the converted item to the
accumulated todo list. -/
theorem designStep_todos (old : List Todo) (acc : DesignAcc) (item : TodoItem) :
    (designStep old acc item).todos = acc.todos ++ [convertTodoItem item] := by
  simp only [designStep]
  repeat' split
  all_goals rfl

/-- The DESIGN.md conversion loop increments its completed counter exactly
on completed items. -/
theorem designStep_completedCount (old : List Todo) (acc : DesignAcc) (item : TodoItem) :
    (designStep old acc item).completedCount =
      acc.completedCount + (if item.Status = TodoStatusCompleted then 1 else 0) := by
  simp only [designStep]
  repeat' split
  all_goals simp_all

/-- Folding the DESIGN.md loop produces the same converted todo list as the
plain map of `todos.go`. -/
theorem foldl_designStep_todos (items : List TodoItem) :
    ∀ (old : List Todo) (acc : DesignAcc),
      (items.foldl (designStep old) acc).todos = acc.todos ++ items.map convertTodoItem := by
  induction items with
  | nil => intro old acc; simp
  | cons it rest ih =>
    intro old acc
    simp only [List.foldl_cons, List.map_cons]
    rw [ih, designStep_todos]
    simp

/-- Folding the DESIGN.md loop counts exactly the completed items. -/
theorem foldl_designStep_completedCount (items : List TodoItem) :
    ∀ (old : List Todo) (acc : DesignAcc),
      (items.foldl (designStep old) acc).completedCount =
        acc.completedCount + items.countP (fun item => item.Status == TodoStatusCompleted) := by
  induction items with
  | nil => intro old acc; simp
  | cons it rest ih =>
    intro old acc
    simp only [List.foldl_cons, List.countP_cons]
    rw [ih, designStep_completedCount]
    by_cases h : it.Status = TodoStatusCompleted
    · simp [h]
      omega
    · simp [h]
/-- C8: on any input where both handler versions succeed, they save the
same todo list and return the same response text; the save lists agree
even on failure. -/
theorem C8_design_variant_agrees (svc : Service) (sessionID : String) (params : TodosParams) :
    (todosToolRun svc sessionID params).2 = (todosToolRunDesign svc sessionID params).2 ∧
    ∀ r1 r2, (todosToolRun svc sessionID params).1 = Except.ok r1 →
      (todosToolRunDesign svc sessionID params).1 = Except.ok r2 →
      r1 = r2.1 := by
  by_cases hsid : sessionID = ""
  · subst hsid
    constructor
    · rfl
    · intro r1 r2 h1 h2
      rw [todosToolRun_empty_sid] at h1
      simp at h1
  · cases hget : svc.get sessionID with
    | error e =>
      constructor
      · simp [todosToolRun, todosToolRunDesign, hsid, hget]
      · intro r1 r2 h1 h2
        rw [todosToolRun_get_error svc sessionID params e hsid hget] at h1
        simp at h1
    | ok sess =>
      have htodos : (params.Todos.foldl (designStep sess.Todos)
          { todos := [], justCompleted := [], justStarted := "", completedCount := 0 }).todos =
          params.Todos.map convertTodoItem := by
        rw [foldl_designStep_todos]
        simp
      have hcc : (params.Todos.foldl (designStep sess.Todos)
          { todos := [], justCompleted := [], justStarted := "",
            completedCount := 0 }).completedCount =
          params.Todos.countP (fun item => item.Status == TodoStatusCompleted) := by
        rw [foldl_designStep_completedCount]
        simp
      have hcp : (params.Todos.map convertTodoItem).countP
            (fun t => t.Status == TodoStatusCompleted) =
          params.Todos.countP (fun item => item.Status == TodoStatusCompleted) := by
        rw [List.countP_map]
        rfl
      constructor
      · simp only [todosToolRun, todosToolRunDesign, if_neg hsid, hget, htodos]
        cases svc.save { sess with Todos := List.map convertTodoItem params.Todos } <;> rfl
      · intro r1 r2 h1 h2
        simp only [todosToolRun, todosToolRunDesign, if_neg hsid, hget, htodos] at h1 h2
        cases hsave : svc.save { sess with Todos := List.map convertTodoItem params.Todos } with
        | error e2 =>
          rw [hsave] at h1
          simp at h1
        | ok s2 =>
          rw [hsave] at h1 h2
          simp only [Except.ok.injEq] at h1 h2
          rw [← h1, ← h2]
          rw [hcp, ← hcc]

/-- Witness for C8 at a concrete service and parameter list on which both
handler versions succeed. -/
theorem C8_design_variant_agrees_witness :
    (todosToolRun svcW "s1" paramsW).1 = Except.ok respW ∧
    (todosToolRunDesign svcW "s1" paramsW).1 = Except.ok (respW, metaW) ∧
    respW = (respW, metaW).1 :=
  ⟨rfl, rfl,
    (C8_design_variant_agrees svcW "s1" paramsW).2 respW (respW, metaW) rfl rfl⟩

/-- C1: the claim — backed by the spec's design note that the string-length
approximation "is almost certainly a bug" and that "an implementation
should parse the counts as integers" — requires `AheadCount = 12` and
`BehindCount = 3` for the rev-list output `"12 3"`.  The code instead
stores `len("12") = 2` and `len("3") = 1` (its own comment: "Simple
approximation"), diverging from the spec-intended integer parse. -/
theorem C1_ahead_behind_length_not_parsed :
    (vcs.applyRevListOutput vcs.Status.init "12 3").AheadCount = 2 ∧
    (vcs.applyRevListOutput vcs.Status.init "12 3").BehindCount = 1 ∧
    vcs.specParseAheadBehind "12 3" = some (12, 3) ∧
    (vcs.applyRevListOutput vcs.Status.init "12 3").AheadCount ≠ 12 ∧
    (vcs.applyRevListOutput vcs.Status.init "12 3").BehindCount ≠ 3 := by
  refine ⟨?_, ?_, ?_, ?_, ?_⟩ <;> decide

/-- One queue event preserves the active-turn accounting invariant. -/
theorem queueStep_inv (s : QueueState) (ev : QEvent)
    (h : s.activeTurns = if s.turnInProgress then 1 else 0) :
    (queueStep s ev).activeTurns = if (queueStep s ev).turnInProgress then 1 else 0 := by
  cases ev with
  | enqueue e =>
    by_cases hb : s.turnInProgress
    · simp only [queueStep, hb, if_true]
      simpa [hb] using h
    · simp only [queueStep, hb, if_false]
      simp [hb] at h
      simp [h]
  | turnComplete =>
    by_cases hz : s.activeTurns = 0
    · simp only [queueStep, hz, if_true]
      exact hz ▸ h
    · have hval : s.activeTurns = 1 := by
        by_cases hb : s.turnInProgress <;> simp [hb] at h <;> omega
      cases hp : s.pending with
      | nil => simp [queueStep, hz, hp, hval]
      | cons e rest => simp [queueStep, hz, hp, hval]

/-- Folding queue events preserves the active-turn accounting invariant. -/
theorem foldl_queueStep_inv (evs : List QEvent) :
    ∀ (s : QueueState), (s.activeTurns = if s.turnInProgress then 1 else 0) →
      ((evs.foldl queueStep s).activeTurns =
        if (evs.foldl queueStep s).turnInProgress then 1 else 0) := by
  induction evs with
  | nil => intro s h; simpa using h
  | cons ev rest ih =>
    intro s h
    simp only [List.foldl_cons]
    exact ih _ (queueStep_inv s ev h)

/-- C2: in the Message Queue discipline modelled from the spec, after any
sequence of enqueue / turn-complete events, at most one Turn Engine
execution is active for the session — so no two executions for the same
session ever run simultaneously. -/
theorem C2_at_most_one_active_turn (evs : List QEvent) :
    (runQueue evs).activeTurns ≤ 1 := by
  have h := foldl_queueStep_inv evs initQueue (by simp [initQueue])
  simp only [runQueue]
  rw [h]
  split <;> omega

/-- C3: when the estimated size of a message log exceeds the high-water
threshold, compaction by summarization leaves the `K` most recent messages
byte-identical: the last `K` entries of the compacted log equal the last
`K` entries of the original log. -/
theorem C3_compaction_preserves_recent (summarize : List Message → Message)
    (hi K : Nat) (log : List Message) (hover : totalSize log > hi) :
    (compact summarize hi K log).drop ((compact summarize hi K log).length - K) =
      log.drop (log.length - K) := by
  unfold compact
  rw [if_neg (by omega)]
  by_cases hlen : log.length ≤ K
  · rw [if_pos hlen]
  · rw [if_neg hlen]
    have hsuffix : (log.drop (log.length - K)).length = K := by
      rw [List.length_drop]
      omega
    simp only [List.length_cons, hsuffix]
    have h1 : K + 1 - K = 1 := by omega
    rw [h1]
    rfl

/-- Witness for C3: ten unit-sized messages with threshold 8 and `K = 2`. -/
theorem C3_compaction_preserves_recent_witness :
    totalSize logW > 8 ∧
    (compact sumW 8 2 logW).drop ((compact sumW 8 2 logW).length - 2) =
      logW.drop (logW.length - 2) :=
  ⟨by decide, C3_compaction_preserves_recent sumW 8 2 logW (by decide)⟩

/-- C7: `JobKill` is idempotent — on an already-exited job it is a no-op
returning success rather than an error, and a second `JobKill` on the same
job has exactly the same observable result (registry and status) as the
first. -/
theorem C7_jobkill_idempotent (reg : JobRegistry) (id : String) :
    (reg id = some JobState.exited →
      (JobKill reg id).2 = true ∧ (JobKill reg id).1 = reg) ∧
    ((JobKill (JobKill reg id).1 id).1 = (JobKill reg id).1 ∧
      (JobKill (JobKill reg id).1 id).2 = (JobKill reg id).2) := by
  constructor
  · intro hex
    simp only [JobKill, hex]
    refine ⟨trivial, ?_⟩
    funext k
    by_cases hk : k = id
    · subst hk
      simp [hex]
    · simp [hk]
  · cases hr : reg id with
    | none => simp [JobKill, hr]
    | some st =>
      set r1 := (JobKill reg id).1 with hr1
      have h1 : r1 id = some JobState.exited := by
        rw [hr1]
        simp [JobKill, hr]
      constructor
      · simp only [JobKill, h1]
        funext k
        by_cases hk : k = id
        · subst hk
          simp [h1]
        · simp [hk]
      · simp only [JobKill, h1]
        simp [hr]

/-- Witness for C7 at a concrete registry with an already-exited job. -/
theorem C7_jobkill_idempotent_witness :
    regW "j1" = some JobState.exited ∧
    (JobKill regW "j1").2 = true ∧ (JobKill regW "j1").1 = regW :=
  ⟨rfl, (C7_jobkill_idempotent regW "j1").1 rfl⟩

/-- A string of length zero is the empty string. -/
theorem string_eq_empty_of_length_zero (s : String) (h : s.length = 0) : s = "" := by
  cases s with
  | mk data =>
    cases data with
    | nil => rfl
    | cons c cs => simp [String.length] at h

/-- C6: `todoPill` renders the empty string exactly for the empty todo
list, and for every non-empty list its rendered content contains the
progress fraction `completed/total`, where `completed` counts the todos
whose status is completed and `total` is the length of the list. -/
theorem C6_todoPill_progress (todos : List Todo) (spinnerView : String)
    (focused pillsPanelFocused : Bool) :
    (todoPill todos spinnerView focused pillsPanelFocused = "" ↔ todos = []) ∧
    (todos ≠ [] → ∃ s1 s2,
      todoPill todos spinnerView focused pillsPanelFocused =
        s1 ++ (toString (todos.countP (fun t => t.Status == TodoStatusCompleted)) ++ "/" ++
          toString todos.length) ++ s2) := by
  by_cases hnil : todos = []
  · subst hnil
    refine ⟨?_, fun h => absurd rfl h⟩
    simp [todoPill]
  · have hlen : ¬ todos.length = 0 := by
      simpa [List.length_eq_zero] using hnil
    have hx : ∃ s1 s2,
        todoPill todos spinnerView focused pillsPanelFocused =
          s1 ++ (toString (todos.countP (fun t => t.Status == TodoStatusCompleted)) ++ "/" ++
            toString todos.length) ++ s2 := by
      simp only [todoPill, if_neg hlen]
      by_cases hp : pillsPanelFocused
      · rw [if_pos hp]
        exact ⟨(if todos.countP (fun t => t.Status == TodoStatusCompleted) = todos.length
            then "✓" ++ " " else "") ++ "To-Do" ++ " ", "",
          (String.append_empty _).symm⟩
      · rw [if_neg hp]
        cases hcur : todos.find? (fun t => t.Status == TodoStatusInProgress) with
        | some cur =>
          refine ⟨spinnerView ++ " " ++ "To-Do" ++ " ", "  " ++ taskTextOf cur, ?_⟩
          simp only [String.append_assoc]
        | none =>
          exact ⟨(if todos.countP (fun t => t.Status == TodoStatusCompleted) = todos.length
              then "✓" ++ " " else "") ++ "To-Do" ++ " ", "",
            (String.append_empty _).symm⟩
    refine ⟨?_, fun _ => hx⟩
    constructor
    · intro h0
      exfalso
      rcases hx with ⟨s1, s2, he⟩
      rw [he] at h0
      have hl := congrArg String.length h0
      rw [String.length_append, String.length_append, String.length_append,
        String.length_append] at hl
      have hslash : ("/").length = 1 := rfl
      rw [hslash] at hl
      simp at hl
    · intro h
      exact absurd h hnil

/-- Witness for C6 at a concrete two-item todo list. -/
theorem C6_todoPill_progress_witness :
    todosW ≠ [] ∧
    ∃ s1 s2, todoPill todosW "sp" false false =
      s1 ++ (toString (todosW.countP (fun t => t.Status == TodoStatusCompleted)) ++ "/" ++
        toString todosW.length) ++ s2 :=
  ⟨by decide, (C6_todoPill_progress todosW "sp" false false).2 (by decide)⟩

/-- C9: `sortTodos` permutes its input; in the result every completed todo
precedes every in-progress todo and every in-progress todo precedes every
todo of any other status (pending or unrecognized); and an already-sorted
array is left unchanged, so `sortTodos` is idempotent. -/
theorem C9_sortTodos_spec (a : Array Todo) :
    ((sortTodos a).toList).Perm a.toList ∧
    (∀ p (hp : p < (sortTodos a).size) q (hq : q < (sortTodos a).size),
      ((sortTodos a).get ⟨p, hp⟩).Status = TodoStatusCompleted →
      ((sortTodos a).get ⟨q, hq⟩).Status = TodoStatusInProgress → p < q) ∧
    (∀ p (hp : p < (sortTodos a).size) q (hq : q < (sortTodos a).size),
      ((sortTodos a).get ⟨p, hp⟩).Status = TodoStatusInProgress →
      ((sortTodos a).get ⟨q, hq⟩).Status ≠ TodoStatusCompleted →
      ((sortTodos a).get ⟨q, hq⟩).Status ≠ TodoStatusInProgress → p < q) ∧
    ((∀ p (hp : p < a.size), ∀ q (hq : q < a.size), p < q →
        statusOrder (a.get ⟨p, hp⟩).Status ≤ statusOrder (a.get ⟨q, hq⟩).Status) →
      sortTodos a = a) := by
  refine ⟨sortOuter_perm a 0, ?_, ?_, ?_⟩
  · intro p hp q hq hsp hsq
    by_contra hnpq
    have hqp : q ≤ p := by omega
    have hkp : keyT (sortTodos a) p = 0 := by
      simp only [keyT]
      rw [getT_get _ _ hp, hsp]
      decide
    have hkq : keyT (sortTodos a) q = 1 := by
      simp only [keyT]
      rw [getT_get _ _ hq, hsq]
      decide
    rcases Nat.eq_or_lt_of_le hqp with heq | hlt
    · subst heq
      rw [hkp] at hkq
      exact absurd hkq (by decide)
    · have hs := sortTodos_sorted a q p hlt hp
      rw [hkp, hkq] at hs
      omega
  · intro p hp q hq hsp hsq1 hsq2
    by_contra hnpq
    have hqp : q ≤ p := by omega
    have hkp : keyT (sortTodos a) p = 1 := by
      simp only [keyT]
      rw [getT_get _ _ hp, hsp]
      decide
    have hkq : keyT (sortTodos a) q = 2 := by
      simp only [keyT]
      rw [getT_get _ _ hq]
      simp only [statusOrder]
      rw [if_neg hsq1, if_neg hsq2]
    rcases Nat.eq_or_lt_of_le hqp with heq | hlt
    · subst heq
      rw [hkp] at hkq
      exact absurd hkq (by decide)
    · have hs := sortTodos_sorted a q p hlt hp
      rw [hkp, hkq] at hs
      omega
  · intro hsorted
    apply sortTodos_of_sorted
    intro p q hpq hq
    have hpa : p < a.size := by omega
    simp only [keyT]
    rw [getT_get _ _ hpa, getT_get _ _ hq]
    exact hsorted p hpa q hq hpq

/-- Witness for C9 at a concrete sorted three-status array: sortedness
hypothesis discharged concretely, idempotence and both precedence
conclusions instantiated. -/
theorem C9_sortTodos_spec_witness :
    sortTodos aSortedW = aSortedW ∧ (0 : Nat) < 1 ∧ (1 : Nat) < 2 := by
  have h := C9_sortTodos_spec aSortedW
  have hsorted : ∀ p (hp : p < aSortedW.size), ∀ q (hq : q < aSortedW.size), p < q →
      statusOrder (aSortedW.get ⟨p, hp⟩).Status ≤ statusOrder (aSortedW.get ⟨q, hq⟩).Status := by
    decide
  have he : sortTodos aSortedW = aSortedW := h.2.2.2 hsorted
  have hb0 : (0 : Nat) < (sortTodos aSortedW).size := by rw [he]; decide
  have hb1 : (1 : Nat) < (sortTodos aSortedW).size := by rw [he]; decide
  have hb2 : (2 : Nat) < (sortTodos aSortedW).size := by rw [he]; decide
  refine ⟨he, ?_, ?_⟩
  · apply h.2.1 0 hb0 1 hb1
    · rw [← getT_get (sortTodos aSortedW) 0 hb0, he]
      decide
    · rw [← getT_get (sortTodos aSortedW) 1 hb1, he]
      decide
  · apply h.2.2.1 1 hb1 2 hb2
    · rw [← getT_get (sortTodos aSortedW) 1 hb1, he]
      decide
    · rw [← getT_get (sortTodos aSortedW) 2 hb2, he]
      decide
    · rw [← getT_get (sortTodos aSortedW) 2 hb2, he]
      decide
